import Mathlib

/-!
Verification of the Engagement Ledger (like/comment subsystem) of the
Social_media_app repository.

Two revisions of the post service are embedded:

* `toggleLike`, `addComment`, `deleteComment`, `getAllPosts` — the service in
  `src/backend/src/services/post.service.ts`, which keeps likes and comments
  embedded on the Post document.
* The `agg`-suffixed operations — the later revision (separate `Like` /
  `Comment` aggregate documents keyed by post id, `like.model.ts` and the
  comment model with `commentEntrySchema`).

MongoDB ObjectIds are modelled as naturals, so the string-format guard
`Types.ObjectId.isValid` of the source is always satisfied and is omitted.
The `!userId` guard (missing authenticated identity) is modelled by passing
`Option` for the user argument.  JS strings are modelled as `List Char`.
-/

/-- Identifier type standing for MongoDB ObjectIds. -/
abbrev OId := Nat

/-- Error taxonomy of `src/backend/src/utils/errors`: `BadRequestError`
(invalid input), `NotFoundError`, `ForbiddenError`, `UnauthorizedError`,
`DatabaseError`. -/
inductive Err where
  | invalidInput
  | notFound
  | forbidden
  | unauthorized
  | storage
deriving DecidableEq, Repr

/-- Whitespace test for the characters relevant here: the ASCII portion of the
JS regex class `\s` used by `String.prototype.trim` and by validatorjs's
`required` rule. -/
def jsIsWs (c : Char) : Bool :=
  c == ' ' || c == '\t' || c == '\n' || c == '\r' ||
    c == Char.ofNat 11 || c == Char.ofNat 12

/-- JS `String.prototype.trim` on a list of characters. -/
def jsTrim (s : List Char) : List Char :=
  ((s.dropWhile jsIsWs).reverse.dropWhile jsIsWs).reverse

/-- Embedded comment sub-document (`commentSchema` in `post.model.ts`): an
auto-generated `_id`, the author reference and the content (stored trimmed,
the schema sets `trim: true`). -/
structure CommentEntry where
  id : OId
  user : OId
  content : List Char
deriving DecidableEq, Repr

/-- Post document (`postSchema` in `post.model.ts`).  `createdAt` is the
timestamp used by the feed sort. -/
structure PostDoc where
  id : OId
  user : OId
  content : List Char
  likes : List OId
  comments : List CommentEntry
  thumbnail : List Char
  isDeleted : Bool
  createdAt : Nat
deriving DecidableEq, Repr

/-- Document-store state for the embedded design: the Post collection plus the
counter modelling Mongoose's generator for fresh comment `_id`s. -/
structure Db where
  posts : List PostDoc
  nextId : OId
deriving DecidableEq, Repr

/-- Model of `Post.findById(postId)`. -/
def Db.findById (db : Db) (postId : OId) : Option PostDoc :=
  db.posts.find? (fun p => p.id == postId)

/-- Model of `post.save()`: the in-memory document replaces the stored
document carrying the same `_id`. -/
def Db.save (db : Db) (p : PostDoc) : Db :=
  { db with posts := db.posts.map (fun q => if q.id == p.id then p else q) }

/-- Embedded-design `toggleLike` (post.service.ts, lines 330-379): guards,
then membership test `post.likes.some(...)`, then either `filter` (unlike) or
`push` (like), then `save`.  Returns the updated post document. -/
def toggleLike (db : Db) (postId : OId) (userId? : Option OId) :
    Db × Except Err PostDoc :=
  match userId? with
  | none => (db, .error .invalidInput)
  | some userId =>
    match db.findById postId with
    | none => (db, .error .notFound)
    | some post =>
      if post.isDeleted then (db, .error .notFound)
      else
        let alreadyLiked := post.likes.any (fun l => l == userId)
        let newLikes :=
          if alreadyLiked then post.likes.filter (fun l => l != userId)
          else post.likes ++ [userId]
        let updated := { post with likes := newLikes }
        (db.save updated, .ok updated)

/-- Embedded-design `addComment` (post.service.ts, lines 389-435): guards on
the user and on `!content`, post lookup, append of the new embedded comment
(whose `_id` is freshly generated and whose content the schema trims), `save`.
Returns the updated post and the newly created comment (the last list
entry). -/
def addComment (db : Db) (postId : OId) (userId? : Option OId)
    (content : List Char) : Db × Except Err (PostDoc × CommentEntry) :=
  match userId? with
  | none => (db, .error .invalidInput)
  | some userId =>
    if content.isEmpty then (db, .error .invalidInput)
    else
      match db.findById postId with
      | none => (db, .error .notFound)
      | some post =>
        if post.isDeleted then (db, .error .notFound)
        else
          let c : CommentEntry :=
            { id := db.nextId, user := userId, content := jsTrim content }
          let updated := { post with comments := post.comments ++ [c] }
          ({ db.save updated with nextId := db.nextId + 1 }, .ok (updated, c))

/-- Embedded-design `deleteComment` (post.service.ts, lines 448-517): guards,
post lookup, comment lookup by `_id`, authorization (comment owner OR post
owner), then removal by `filter` and `save`. -/
def deleteComment (db : Db) (postId commentId : OId) (userId? : Option OId) :
    Db × Except Err PostDoc :=
  match userId? with
  | none => (db, .error .invalidInput)
  | some userId =>
    match db.findById postId with
    | none => (db, .error .notFound)
    | some post =>
      if post.isDeleted then (db, .error .notFound)
      else
        match post.comments.find? (fun c => c.id == commentId) with
        | none => (db, .error .notFound)
        | some comment =>
          let isCommentOwner := comment.user == userId
          let isPostOwner := post.user == userId
          if !isCommentOwner && !isPostOwner then (db, .error .forbidden)
          else
            let updated :=
              { post with
                comments := post.comments.filter (fun c => c.id != commentId) }
            (db.save updated, .ok updated)

/-- Insertion step of the feed sort, keeping the list ordered by descending
`createdAt` (models `.sort({ createdAt: -1 })`). -/
def insertByNewest (p : PostDoc) : List PostDoc → List PostDoc
  | [] => [p]
  | q :: qs =>
    if p.createdAt ≤ q.createdAt then q :: insertByNewest p qs
    else p :: q :: qs

/-- Feed sort: newest posts first. -/
def sortByNewest (l : List PostDoc) : List PostDoc :=
  l.foldr insertByNewest []

/-- Embedded-design `getAllPosts` (post.service.ts, lines 79-114):
normalizes the page, fixes the internal page size to 5 (`limitNum = 5`)
regardless of the `limit` argument, filters out soft-deleted posts, sorts
newest first, skips and takes, and reports `Math.ceil(total / limitNum)`
pages.  Result: `(posts, total, pages)`. -/
def getAllPosts (db : Db) (page limit : Nat) : List PostDoc × Nat × Nat :=
  let pageNum := max 1 page
  let limitNum := 5
  let skip := (pageNum - 1) * limitNum
  let visible := db.posts.filter (fun p => !p.isDeleted)
  let posts := ((sortByNewest visible).drop skip).take limitNum
  let total := visible.length
  let pages := (total + (limitNum - 1)) / limitNum
  (posts, total, pages)

/-- Pagination metadata assembled by the `getAllPosts` controller. -/
structure Pagination where
  currentPage : Nat
  limit : Nat
  total : Nat
  totalPages : Nat
deriving DecidableEq, Repr

/-- Controller for `GET /posts` (post.controller.ts, lines 31-63): validates
`page ≥ 1`, `1 ≤ limit ≤ 100`, calls the service, and echoes the
caller-supplied `limit` in the pagination metadata. -/
def getAllPostsController (db : Db) (page limit : Nat) :
    Except Err (List PostDoc × Pagination) :=
  if page < 1 then .error .invalidInput
  else if limit < 1 then .error .invalidInput
  else if limit > 100 then .error .invalidInput
  else
    let r := getAllPosts db page limit
    .ok (r.1,
      { currentPage := page, limit := limit, total := r.2.1,
        totalPages := r.2.2 })

/-- Rule `required` of validatorjs: `String(val).replace(/\s/g, "")` must be
nonempty. -/
def vjsRequired (s : List Char) : Bool :=
  !(s.filter (fun c => !jsIsWs c)).isEmpty

/-- Rule `min:n` of validatorjs on a string: compares the raw length. -/
def vjsMinLen (n : Nat) (s : List Char) : Bool :=
  n ≤ s.length

/-- Rule `max:n` of validatorjs on a string: compares the raw length. -/
def vjsMaxLen (n : Nat) (s : List Char) : Bool :=
  s.length ≤ n

/-- The `commentRules` check of `post.schema.ts`:
`content: 'required|min:1|max:500'`. -/
def commentRulesPass (content : List Char) : Bool :=
  vjsRequired content && vjsMinLen 1 content && vjsMaxLen 500 content

/-- Full `POST /posts/:id/comments` pipeline (post.controller.ts
`addComment`): `validateOrThrow(req.body, commentRules, ...)` followed by the
service call. -/
def addCommentRoute (db : Db) (postId : OId) (userId? : Option OId)
    (content : List Char) : Db × Except Err (PostDoc × CommentEntry) :=
  if commentRulesPass content then addComment db postId userId? content
  else (db, .error .invalidInput)

/-- Like aggregate document (`like.model.ts`): the set of users who liked one
post, plus a stored running `count`. -/
structure LikeDoc where
  users : List OId
  count : Nat
deriving DecidableEq, Repr

/-- Comment aggregate document (comment model with `commentEntrySchema`):
ordered comment entries for one post, the set of commenting users, and a
stored running `count`. -/
structure CommentDoc where
  comments : List CommentEntry
  users : List OId
  count : Nat
deriving DecidableEq, Repr

/-- Document-store state for the separate-aggregate revision: the Post
collection, the Like collection keyed by post id, the Comment collection
keyed by post id, and the fresh-id counter. -/
structure Db2 where
  posts : List PostDoc
  likes : List (OId × LikeDoc)
  commentDocs : List (OId × CommentDoc)
  nextId : OId
deriving DecidableEq, Repr

/-- Model of `Like.findOne({ post: postId })`. -/
def Db2.findLike (db : Db2) (postId : OId) : Option LikeDoc :=
  (db.likes.find? (fun e => e.1 == postId)).map (fun e => e.2)

/-- Model of `Like.create({ post: postId, ... })`. -/
def Db2.createLike (db : Db2) (postId : OId) (d : LikeDoc) : Db2 :=
  { db with likes := db.likes ++ [(postId, d)] }

/-- Model of `likeDoc.save()`. -/
def Db2.saveLike (db : Db2) (postId : OId) (d : LikeDoc) : Db2 :=
  { db with
    likes := db.likes.map (fun e => if e.1 == postId then (postId, d) else e) }

/-- Model of `Comment.findOne({ post: postId })`. -/
def Db2.findCommentDoc (db : Db2) (postId : OId) : Option CommentDoc :=
  (db.commentDocs.find? (fun e => e.1 == postId)).map (fun e => e.2)

/-- Model of `Comment.create({ post: postId, ... })`. -/
def Db2.createCommentDoc (db : Db2) (postId : OId) (d : CommentDoc) : Db2 :=
  { db with commentDocs := db.commentDocs ++ [(postId, d)] }

/-- Model of `commentDoc.save()`. -/
def Db2.saveCommentDoc (db : Db2) (postId : OId) (d : CommentDoc) : Db2 :=
  { db with
    commentDocs :=
      db.commentDocs.map (fun e => if e.1 == postId then (postId, d) else e) }

/-- Transition applied to one post's Like state by the aggregate-revision
`toggleLike`: the absent document becomes `{ users: [userId], count: 1 }`
(the `Like.create` branch); otherwise membership is toggled with
`some`/`filter`/`push` and `count` is reassigned to `users.length`. -/
def toggleLikeStep (doc? : Option LikeDoc) (userId : OId) : LikeDoc :=
  match doc? with
  | none => { users := [userId], count := 1 }
  | some d =>
    let users' :=
      if d.users.any (fun u => u == userId) then
        d.users.filter (fun u => u != userId)
      else d.users ++ [userId]
    { users := users', count := users'.length }

/-- Result shape returned by the aggregate-revision `toggleLike`. -/
structure LikeView where
  likesCount : Nat
  likedByCurrentUser : Bool
  users : List OId
deriving DecidableEq, Repr

/-- Aggregate-revision `toggleLike` (lines 636-663 of its service file):
guards, `Like.findOne`, create-or-toggle, and the unified return shape.  Note
that the Post collection is never consulted. -/
def toggleLikeAgg (db : Db2) (postId : OId) (userId? : Option OId) :
    Db2 × Except Err LikeView :=
  match userId? with
  | none => (db, .error .unauthorized)
  | some userId =>
    let doc? := db.findLike postId
    let d := toggleLikeStep doc? userId
    let db' :=
      match doc? with
      | none => db.createLike postId d
      | some _ => db.saveLike postId d
    (db',
      .ok { likesCount := d.count,
            likedByCurrentUser := d.users.any (fun u => u == userId),
            users := d.users })

/-- Aggregate-revision `addComment`: guards, `Comment.findOne`, then either
`Comment.create` with the single new entry or push/save with
`count = comments.length`.  The Post collection is never consulted. -/
def addCommentAgg (db : Db2) (postId : OId) (userId? : Option OId)
    (content : List Char) : Db2 × Except Err (List CommentEntry × Nat) :=
  match userId? with
  | none => (db, .error .invalidInput)
  | some userId =>
    if content.isEmpty then (db, .error .invalidInput)
    else
      let c : CommentEntry :=
        { id := db.nextId, user := userId, content := content }
      match db.findCommentDoc postId with
      | none =>
        let d : CommentDoc := { comments := [c], users := [userId], count := 1 }
        ({ db.createCommentDoc postId d with nextId := db.nextId + 1 },
          .ok (d.comments, d.count))
      | some d =>
        let comments' := d.comments ++ [c]
        let users' :=
          if d.users.any (fun u => u == userId) then d.users
          else d.users ++ [userId]
        let d' : CommentDoc :=
          { comments := comments', users := users', count := comments'.length }
        ({ db.saveCommentDoc postId d' with nextId := db.nextId + 1 },
          .ok (d'.comments, d'.count))

/-- Aggregate-revision `deleteComment` (lines 744-800 of its service file,
authorization check at lines 769-772): guards, `Comment.findOne`, comment
lookup by `_id`, then an authorization check comparing the caller against the
comment's author only, then removal by `filter` with the count reassigned. -/
def deleteCommentAgg (db : Db2) (postId commentId : OId)
    (userId? : Option OId) : Db2 × Except Err (List CommentEntry × Nat) :=
  match userId? with
  | none => (db, .error .unauthorized)
  | some userId =>
    match db.findCommentDoc postId with
    | none => (db, .error .notFound)
    | some d =>
      match d.comments.find? (fun c => c.id == commentId) with
      | none => (db, .error .notFound)
      | some comment =>
        if comment.user != userId then (db, .error .unauthorized)
        else
          let comments' := d.comments.filter (fun c => c.id != commentId)
          let d' :=
            { d with comments := comments', count := comments'.length }
          (db.saveCommentDoc postId d', .ok (d'.comments, d'.count))

/-- Users of an optional Like document; the absent document is the empty
like set. -/
def likeUsers : Option LikeDoc → List OId
  | none => []
  | some d => d.users

/-- Reported count of an optional Like document (what `getLikesState`
returns: 0 when the document is absent). -/
def likeCount : Option LikeDoc → Nat
  | none => 0
  | some d => d.count

/-- Invariant of one post's Like state: the stored count matches the number
of members, no user id occurs twice, and consequently the count is the
cardinality of the set of members. -/
def likeSetInv : Option LikeDoc → Prop
  | none => True
  | some d =>
    d.count = d.users.length ∧ d.users.Nodup ∧ d.users.toFinset.card = d.count

example : jsTrim [' ', 'a', ' '] = ['a'] := by decide
example : commentRulesPass [' ', 'a'] = true := by decide
example : commentRulesPass [' ', ' '] = false := by decide

/-! Helper lemmas about the document store. -/

theorem find?_id_some {l : List PostDoc} {pid : OId} {p : PostDoc}
    (h : l.find? (fun q => q.id == pid) = some p) : p.id = pid := by
  have := List.find?_some h
  simpa using this

theorem find?_map_save {l : List PostDoc} {pid : OId} {p p' : PostDoc}
    (hid : p'.id = p.id) (h : l.find? (fun q => q.id == pid) = some p) :
    (l.map (fun q => if q.id == p'.id then p' else q)).find?
      (fun q => q.id == pid) = some p' := by
  have hpid : p.id = pid := find?_id_some h
  induction l with
  | nil => simp at h
  | cons q qs ih =>
    rw [List.map_cons]
    by_cases hq : q.id = pid
    · rw [List.find?_cons_of_pos qs (by simpa using hq)] at h
      have hqp : q = p := by injection h
      subst hqp
      rw [if_pos (by simp [hid])]
      exact List.find?_cons_of_pos _ (by simp [hid, hpid])
    · rw [List.find?_cons_of_neg qs (by simpa using hq)] at h
      rw [if_neg (by simp only [beq_iff_eq, hid, hpid]; exact hq)]
      rw [List.find?_cons_of_neg _ (by simpa using hq)]
      exact ih h

theorem findById_save {db : Db} {pid : OId} {p p' : PostDoc}
    (hid : p'.id = p.id) (h : db.findById pid = some p) :
    (db.save p').findById pid = some p' := by
  simp only [Db.findById, Db.save] at h ⊢
  exact find?_map_save hid h

theorem any_beq_eq_mem {l : List OId} {u : OId} :
    l.any (fun x => x == u) = true ↔ u ∈ l := by
  simp [List.any_eq_true]

theorem filter_bne_of_not_mem {l : List OId} {u : OId} (h : u ∉ l) :
    l.filter (fun x => x != u) = l := by
  refine List.filter_eq_self.mpr ?_
  intro a ha
  simp only [bne_iff_ne, ne_eq, decide_eq_true_eq]
  exact fun e => h (e ▸ ha)

theorem not_mem_filter_bne {l : List OId} {u : OId} :
    u ∉ l.filter (fun x => x != u) := by
  simp [List.mem_filter]

/-- C1: for every existing, non-deleted post P and authenticated user U,
toggleLike(P, U) removes U from P's like set when U is a member and adds U
otherwise, and the returned value reflects the post-mutation state: the
returned count equals the like set's size after the toggle and likedByCaller
equals U's membership after the toggle.  First conjunct: the embedded-design
service (the returned document is the saved post-toggle state).  Second
conjunct: the aggregate revision, whose returned `likesCount` and
`likedByCurrentUser` fields are computed from the post-toggle Like
document. -/
theorem toggleLike_correct :
    (∀ (db : Db) (pid u : OId) (p : PostDoc),
      db.findById pid = some p → p.isDeleted = false →
      ∃ q : PostDoc,
        toggleLike db pid (some u) = (db.save q, .ok q) ∧
        q.likes = (if u ∈ p.likes then p.likes.filter (fun l => l != u)
                   else p.likes ++ [u]) ∧
        (u ∈ q.likes ↔ u ∉ p.likes)) ∧
    (∀ (db2 : Db2) (pid u : OId),
      ∃ v : LikeView,
        (toggleLikeAgg db2 pid (some u)).2 = .ok v ∧
        v.users = (if u ∈ likeUsers (db2.findLike pid) then
                     (likeUsers (db2.findLike pid)).filter (fun l => l != u)
                   else likeUsers (db2.findLike pid) ++ [u]) ∧
        v.likesCount = v.users.length ∧
        (v.likedByCurrentUser = true ↔ u ∈ v.users) ∧
        (v.likedByCurrentUser = true ↔ u ∉ likeUsers (db2.findLike pid))) := by
  constructor
  · intro db pid u p hp hnd
    refine ⟨{ p with
      likes := if u ∈ p.likes then p.likes.filter (fun l => l != u)
               else p.likes ++ [u] }, ?_, rfl, ?_⟩
    · by_cases hmem : u ∈ p.likes
      · have ha : p.likes.any (fun l => l == u) = true := any_beq_eq_mem.mpr hmem
        simp [toggleLike, hp, hnd, ha, hmem]
      · have ha : p.likes.any (fun l => l == u) = false := by
          rw [← Bool.not_eq_true]
          exact fun hc => hmem (any_beq_eq_mem.mp hc)
        simp [toggleLike, hp, hnd, ha, hmem]
    · by_cases hmem : u ∈ p.likes
      · simp [hmem, not_mem_filter_bne]
      · simp [hmem]
  · intro db2 pid u
    cases hd : db2.findLike pid with
    | none =>
      refine ⟨{ likesCount := 1, likedByCurrentUser := true, users := [u] },
        ?_, ?_, ?_, ?_, ?_⟩ <;>
        simp [toggleLikeAgg, toggleLikeStep, hd, likeUsers]
    | some d =>
      by_cases hmem : u ∈ d.users
      · have ha : d.users.any (fun x => x == u) = true := any_beq_eq_mem.mpr hmem
        refine ⟨{ likesCount := (d.users.filter (fun x => x != u)).length,
                  likedByCurrentUser :=
                    (d.users.filter (fun x => x != u)).any (fun x => x == u),
                  users := d.users.filter (fun x => x != u) }, ?_, ?_, ?_, ?_, ?_⟩
        · simp [toggleLikeAgg, toggleLikeStep, hd, ha]
        · simp [likeUsers, hd, hmem]
        · rfl
        · simp [any_beq_eq_mem]
        · simp [any_beq_eq_mem, likeUsers, hd, hmem, not_mem_filter_bne]
      · have ha : d.users.any (fun x => x == u) = false := by
          rw [← Bool.not_eq_true]
          exact fun hc => hmem (any_beq_eq_mem.mp hc)
        refine ⟨{ likesCount := (d.users ++ [u]).length,
                  likedByCurrentUser := (d.users ++ [u]).any (fun x => x == u),
                  users := d.users ++ [u] }, ?_, ?_, ?_, ?_, ?_⟩
        · simp [toggleLikeAgg, toggleLikeStep, hd, ha]
        · simp [likeUsers, hd, hmem]
        · rfl
        · simp [any_beq_eq_mem]
        · simp [any_beq_eq_mem, likeUsers, hd, hmem]

theorem filter_append_self {l : List OId} {u : OId} (h : u ∉ l) :
    (l ++ [u]).filter (fun x => x != u) = l := by
  rw [List.filter_append, filter_bne_of_not_mem h]
  simp

theorem find?_map_update_fst {β : Type} {l : List (OId × β)} {k : OId}
    {a : OId × β} {d : β} (h : l.find? (fun x => x.1 == k) = some a) :
    (l.map (fun x => if x.1 == k then (k, d) else x)).find?
      (fun x => x.1 == k) = some (k, d) := by
  induction l with
  | nil => simp at h
  | cons q qs ih =>
    rw [List.map_cons]
    by_cases hq : q.1 = k
    · rw [if_pos (by simpa using hq)]
      exact List.find?_cons_of_pos _ (by simp)
    · rw [if_neg (by simpa using hq)]
      rw [List.find?_cons_of_neg qs (by simpa using hq)] at h
      rw [List.find?_cons_of_neg _ (by simpa using hq)]
      exact ih h

theorem findLike_save {db : Db2} {pid : OId} {d0 d : LikeDoc}
    (h : db.findLike pid = some d0) :
    (db.saveLike pid d).findLike pid = some d := by
  simp only [Db2.findLike, Db2.saveLike] at h ⊢
  obtain ⟨a, ha, -⟩ := Option.map_eq_some'.mp h
  rw [find?_map_update_fst ha]
  rfl

theorem findLike_create {db : Db2} {pid : OId} {d : LikeDoc}
    (h : db.findLike pid = none) :
    (db.createLike pid d).findLike pid = some d := by
  simp only [Db2.findLike, Db2.createLike] at h ⊢
  have h' : db.likes.find? (fun e => e.1 == pid) = none := by
    cases hf : db.likes.find? (fun e => e.1 == pid) with
    | none => rfl
    | some a => rw [hf] at h; simp at h
  rw [List.find?_append, h']
  simp

theorem toggleLikeStep_inv (d? : Option LikeDoc) (u : OId)
    (h : likeSetInv d?) : likeSetInv (some (toggleLikeStep d? u)) := by
  cases d? with
  | none => refine ⟨rfl, ?_, ?_⟩ <;> simp [toggleLikeStep]
  | some d =>
    obtain ⟨-, hnd, -⟩ := h
    by_cases hmem : u ∈ d.users
    · have ha : d.users.any (fun x => x == u) = true := any_beq_eq_mem.mpr hmem
      have hnd' : (d.users.filter (fun x => x != u)).Nodup := hnd.filter _
      refine ⟨rfl, ?_, ?_⟩ <;>
        simp only [toggleLikeStep, ha, if_true]
      · exact hnd'
      · exact List.toFinset_card_of_nodup hnd'
    · have ha : d.users.any (fun x => x == u) = false := by
        rw [← Bool.not_eq_true]
        exact fun hc => hmem (any_beq_eq_mem.mp hc)
      have hnd' : (d.users ++ [u]).Nodup := by
        rw [List.nodup_append]
        refine ⟨hnd, List.nodup_singleton u, ?_⟩
        intro a hal har
        rw [List.mem_singleton] at har
        exact hmem (har ▸ hal)
      refine ⟨rfl, ?_, ?_⟩ <;>
        simp only [toggleLikeStep, ha, Bool.false_eq_true, if_false]
      · exact hnd'
      · exact List.toFinset_card_of_nodup hnd'

theorem foldl_toggle_inv (ops : List OId) (d? : Option LikeDoc)
    (h : likeSetInv d?) :
    likeSetInv (ops.foldl (fun s u => some (toggleLikeStep s u)) d?) := by
  induction ops generalizing d? with
  | nil => exact h
  | cons u us ih => exact ih _ (toggleLikeStep_inv _ _ h)

/-- C2: for every state of a post's LikeSet reachable by any finite sequence
of toggleLike calls starting from the empty set (the absent Like document, by
any users), the stored count equals the cardinality of the users set and each
user id occurs at most once in users. -/
theorem likeSet_reachable_inv (ops : List OId) :
    likeSetInv (ops.foldl (fun s u => some (toggleLikeStep s u)) none) :=
  foldl_toggle_inv ops none trivial

/-- C6: for every post P and user U with U not in P's like set, calling
toggleLike(P, U) and then toggleLike(P, U) again returns the like count to
its original value and the second call's likedByCaller is false.  First
conjunct: the embedded-design service (the like list itself returns to its
original value).  Second conjunct: the aggregate revision (the second call
reports the original stored count, requiring the like-set invariant, and
`likedByCurrentUser = false`). -/
theorem toggleLike_found {db : Db} {pid : OId} {p : PostDoc} (u : OId)
    (hp : db.findById pid = some p) (hnd : p.isDeleted = false) :
    toggleLike db pid (some u) =
      (db.save { p with
          likes := if u ∈ p.likes then p.likes.filter (fun l => l != u)
                   else p.likes ++ [u] },
        .ok { p with
          likes := if u ∈ p.likes then p.likes.filter (fun l => l != u)
                   else p.likes ++ [u] }) := by
  by_cases hmem : u ∈ p.likes
  · have ha : p.likes.any (fun l => l == u) = true := any_beq_eq_mem.mpr hmem
    simp [toggleLike, hp, hnd, ha, hmem]
  · have ha : p.likes.any (fun l => l == u) = false := by
      rw [← Bool.not_eq_true]
      exact fun hc => hmem (any_beq_eq_mem.mp hc)
    simp [toggleLike, hp, hnd, ha, hmem]

theorem toggleLikeAgg_found {db : Db2} {pid : OId} {d : LikeDoc} (u : OId)
    (hd : db.findLike pid = some d) :
    toggleLikeAgg db pid (some u) =
      (db.saveLike pid (toggleLikeStep (some d) u),
        .ok ⟨(toggleLikeStep (some d) u).count,
          (toggleLikeStep (some d) u).users.any (fun x => x == u),
          (toggleLikeStep (some d) u).users⟩) := by
  simp [toggleLikeAgg, hd]

theorem toggleLikeAgg_fresh {db : Db2} {pid : OId} (u : OId)
    (hd : db.findLike pid = none) :
    toggleLikeAgg db pid (some u) =
      (db.createLike pid (toggleLikeStep none u),
        .ok ⟨(toggleLikeStep none u).count,
          (toggleLikeStep none u).users.any (fun x => x == u),
          (toggleLikeStep none u).users⟩) := by
  simp [toggleLikeAgg, hd]

theorem toggleLike_pair_restores :
    (∀ (db : Db) (pid u : OId) (p : PostDoc),
      db.findById pid = some p → p.isDeleted = false → u ∉ p.likes →
      ∃ (db1 db2 : Db) (p1 p2 : PostDoc),
        toggleLike db pid (some u) = (db1, .ok p1) ∧
        toggleLike db1 pid (some u) = (db2, .ok p2) ∧
        p2.likes = p.likes ∧ u ∉ p2.likes) ∧
    (∀ (db : Db2) (pid u : OId),
      likeSetInv (db.findLike pid) → u ∉ likeUsers (db.findLike pid) →
      ∃ (dbA dbB : Db2) (v1 v2 : LikeView),
        toggleLikeAgg db pid (some u) = (dbA, .ok v1) ∧
        toggleLikeAgg dbA pid (some u) = (dbB, .ok v2) ∧
        v2.likesCount = likeCount (db.findLike pid) ∧
        v2.likedByCurrentUser = false) := by
  constructor
  · intro db pid u p hp hnd hu
    have e1 := toggleLike_found u hp hnd
    rw [if_neg hu] at e1
    have hfind1 : (db.save { p with likes := p.likes ++ [u] }).findById pid =
        some { p with likes := p.likes ++ [u] } :=
      findById_save (p := p) rfl hp
    have e2 := toggleLike_found u hfind1 hnd
    rw [if_pos (by simp :
      u ∈ ({ p with likes := p.likes ++ [u] } : PostDoc).likes)] at e2
    refine ⟨_, _, _, _, e1, e2, ?_, ?_⟩
    · exact filter_append_self hu
    · exact not_mem_filter_bne
  · intro db pid u hinv hu
    cases hd : db.findLike pid with
    | none =>
      have e1 := toggleLikeAgg_fresh u hd
      have hfA : (db.createLike pid (toggleLikeStep none u)).findLike pid =
          some (toggleLikeStep none u) := findLike_create hd
      have e2 := toggleLikeAgg_found u hfA
      refine ⟨_, _, _, _, e1, e2, ?_, ?_⟩
      · simp [toggleLikeStep, likeCount]
      · simp [toggleLikeStep]
    | some d =>
      have huD : u ∉ d.users := by simpa [likeUsers, hd] using hu
      have hc : d.count = d.users.length := by
        rw [hd] at hinv
        exact hinv.1
      have ha : d.users.any (fun x => x == u) = false := by
        rw [← Bool.not_eq_true]
        exact fun hx => huD (any_beq_eq_mem.mp hx)
      have hstep1 : toggleLikeStep (some d) u =
          ⟨d.users ++ [u], (d.users ++ [u]).length⟩ := by
        simp [toggleLikeStep, huD]
      have hstep2 : toggleLikeStep
          (some (⟨d.users ++ [u], (d.users ++ [u]).length⟩ : LikeDoc)) u =
          ⟨d.users, d.users.length⟩ := by
        have : u ∈ d.users ++ [u] := by simp
        simp [toggleLikeStep, this, filter_append_self huD]
      have e1 := toggleLikeAgg_found u hd
      have hfA : (db.saveLike pid (toggleLikeStep (some d) u)).findLike pid =
          some (toggleLikeStep (some d) u) := findLike_save hd
      have e2 := toggleLikeAgg_found u hfA
      refine ⟨_, _, _, _, e1, e2, ?_, ?_⟩
      · rw [hstep1, hstep2]
        simpa [likeCount] using hc.symm
      · rw [hstep1, hstep2]
        exact ha

/-- C6: for every post P and user U with U not in P's like set, calling
toggleLike(P, U) and then toggleLike(P, U) again returns the like count to
its original value and the second call's likedByCaller is false.  First
conjunct: the embedded-design service (the like list itself returns to its
original value).  Second conjunct: the aggregate revision (the second call
reports the original stored count, requiring the like-set invariant, and
`likedByCurrentUser = false`). -/
theorem toggleLike_pair_correct :
    (∀ (db : Db) (pid u : OId) (p : PostDoc),
      db.findById pid = some p → p.isDeleted = false → u ∉ p.likes →
      ∃ (db1 db2 : Db) (p1 p2 : PostDoc),
        toggleLike db pid (some u) = (db1, .ok p1) ∧
        toggleLike db1 pid (some u) = (db2, .ok p2) ∧
        p2.likes = p.likes ∧ u ∉ p2.likes) ∧
    (∀ (db : Db2) (pid u : OId),
      likeSetInv (db.findLike pid) → u ∉ likeUsers (db.findLike pid) →
      ∃ (dbA dbB : Db2) (v1 v2 : LikeView),
        toggleLikeAgg db pid (some u) = (dbA, .ok v1) ∧
        toggleLikeAgg dbA pid (some u) = (dbB, .ok v2) ∧
        v2.likesCount = likeCount (db.findLike pid) ∧
        v2.likedByCurrentUser = false) :=
  toggleLike_pair_restores

/-- Witness for C6 at a concrete input: post 1 with no likes, user 2 toggling
twice in both designs. -/
theorem toggleLike_pair_correct_witness :
    (∃ (db1 db2 : Db) (p1 p2 : PostDoc),
      toggleLike ⟨[⟨1, 9, [], [], [], [], false, 0⟩], 0⟩ 1 (some 2) =
        (db1, .ok p1) ∧
      toggleLike db1 1 (some 2) = (db2, .ok p2) ∧
      p2.likes = ([] : List OId) ∧ 2 ∉ p2.likes) ∧
    (∃ (dbA dbB : Db2) (v1 v2 : LikeView),
      toggleLikeAgg ⟨[], [], [], 0⟩ 1 (some 2) = (dbA, .ok v1) ∧
      toggleLikeAgg dbA 1 (some 2) = (dbB, .ok v2) ∧
      v2.likesCount = likeCount ((⟨[], [], [], 0⟩ : Db2).findLike 1) ∧
      v2.likedByCurrentUser = false) :=
  ⟨toggleLike_pair_correct.1 ⟨[⟨1, 9, [], [], [], [], false, 0⟩], 0⟩ 1 2
      ⟨1, 9, [], [], [], [], false, 0⟩ rfl rfl (by decide),
    toggleLike_pair_correct.2 ⟨[], [], [], 0⟩ 1 2 trivial (by decide)⟩

theorem addComment_found {db : Db} {pid : OId} {p : PostDoc} (u : OId)
    {t : List Char} (hp : db.findById pid = some p)
    (hnd : p.isDeleted = false) (ht : t.isEmpty = false) :
    addComment db pid (some u) t =
      ({ db.save { p with
            comments := p.comments ++ [⟨db.nextId, u, jsTrim t⟩] } with
          nextId := db.nextId + 1 },
        .ok ({ p with comments := p.comments ++ [⟨db.nextId, u, jsTrim t⟩] },
          ⟨db.nextId, u, jsTrim t⟩)) := by
  simp [addComment, hp, hnd, ht]

theorem deleteComment_found {db : Db} {pid cid u : OId} {p : PostDoc}
    {c : CommentEntry} (hp : db.findById pid = some p)
    (hnd : p.isDeleted = false)
    (hfc : p.comments.find? (fun x => x.id == cid) = some c)
    (hauth : (!(c.user == u) && !(p.user == u)) = false) :
    deleteComment db pid cid (some u) =
      (db.save { p with comments := p.comments.filter (fun x => x.id != cid) },
        .ok { p with comments := p.comments.filter (fun x => x.id != cid) }) := by
  simp [deleteComment, hp, hnd, hfc, hauth]

theorem find?_comments_middle {l1 l2 : List CommentEntry} {c : CommentEntry}
    {cid : OId} (hcid : c.id = cid) (h1 : ∀ x ∈ l1, x.id ≠ cid) :
    (l1 ++ c :: l2).find? (fun x => x.id == cid) = some c := by
  induction l1 with
  | nil =>
    rw [List.nil_append]
    exact List.find?_cons_of_pos _ (by simp [hcid])
  | cons a l1 ih =>
    rw [List.cons_append,
      List.find?_cons_of_neg _ (by simp [h1 a (by simp)])]
    exact ih (fun x hx => h1 x (by simp [hx]))

theorem filter_comments_middle {l1 l2 : List CommentEntry} {c : CommentEntry}
    {cid : OId} (hcid : c.id = cid) (h1 : ∀ x ∈ l1 ++ l2, x.id ≠ cid) :
    (l1 ++ c :: l2).filter (fun x => x.id != cid) = l1 ++ l2 := by
  have hc : (c.id != cid) = false := by simp [hcid]
  have hl1 : l1.filter (fun x => x.id != cid) = l1 :=
    List.filter_eq_self.mpr (fun a ha => by
      simp only [bne_iff_ne, ne_eq, decide_eq_true_eq]
      exact h1 a (List.mem_append_left _ ha))
  have hl2 : l2.filter (fun x => x.id != cid) = l2 :=
    List.filter_eq_self.mpr (fun a ha => by
      simp only [bne_iff_ne, ne_eq, decide_eq_true_eq]
      exact h1 a (List.mem_append_right _ ha))
  rw [List.filter_append, List.filter_cons, hc, hl1, hl2]
  simp

/-- C3: deleteComment authorization.  In the embedded-design service,
deletion succeeds exactly when the caller is the comment's author or the
post's author, and every other caller gets Forbidden (first two conjuncts,
universally).  The last conjunct exhibits the divergence of the aggregate
revision: the post's author (user 1, who did not write comment 9 — its
author is user 2) is rejected with Unauthorized and the store is untouched,
although that code's own comment says the post's author may delete. -/
theorem deleteComment_auth_divergence :
    (∀ (db : Db) (pid cid u : OId) (p : PostDoc) (c : CommentEntry),
      db.findById pid = some p → p.isDeleted = false →
      p.comments.find? (fun x => x.id == cid) = some c →
      (c.user = u ∨ p.user = u) →
      ∃ (db' : Db) (q : PostDoc),
        deleteComment db pid cid (some u) = (db', .ok q)) ∧
    (∀ (db : Db) (pid cid u : OId) (p : PostDoc) (c : CommentEntry),
      db.findById pid = some p → p.isDeleted = false →
      p.comments.find? (fun x => x.id == cid) = some c →
      c.user ≠ u → p.user ≠ u →
      deleteComment db pid cid (some u) = (db, .error .forbidden)) ∧
    deleteCommentAgg
        ⟨[⟨5, 1, [], [], [], [], false, 0⟩], [],
          [(5, ⟨[⟨9, 2, ['h', 'i']⟩], [2], 1⟩)], 20⟩ 5 9 (some 1) =
      (⟨[⟨5, 1, [], [], [], [], false, 0⟩], [],
          [(5, ⟨[⟨9, 2, ['h', 'i']⟩], [2], 1⟩)], 20⟩, .error .unauthorized) := by
  refine ⟨?_, ?_, rfl⟩
  · intro db pid cid u p c hp hnd hfc hauth
    have hb : (!(c.user == u) && !(p.user == u)) = false := by
      rcases hauth with h | h <;> simp [h]
    exact ⟨db.save { p with comments := p.comments.filter (fun x => x.id != cid) },
      { p with comments := p.comments.filter (fun x => x.id != cid) },
      by simp [deleteComment, hp, hnd, hfc, hb]⟩
  · intro db pid cid u p c hp hnd hfc h1 h2
    have hb : (!(c.user == u) && !(p.user == u)) = true := by
      simp [h1, h2]
    simp [deleteComment, hp, hnd, hfc, hb]

/-- Witness for C3 at a concrete input: the embedded service lets the post
author (1) delete user 2's comment 9. -/
theorem deleteComment_auth_divergence_witness :
    ∃ (db' : Db) (q : PostDoc),
      deleteComment ⟨[⟨5, 1, [], [], [⟨9, 2, ['h', 'i']⟩], [], false, 0⟩], 20⟩
        5 9 (some 1) = (db', .ok q) :=
  deleteComment_auth_divergence.1
    ⟨[⟨5, 1, [], [], [⟨9, 2, ['h', 'i']⟩], [], false, 0⟩], 20⟩ 5 9 1
    ⟨5, 1, [], [], [⟨9, 2, ['h', 'i']⟩], [], false, 0⟩ ⟨9, 2, ['h', 'i']⟩
    rfl rfl rfl (Or.inr rfl)

/-- C4 (supporting theorem): in the embedded-design service, a missing post
or a soft-deleted post makes toggleLike, addComment and deleteComment all
fail with NotFound (given arguments that pass the input guards); the last
conjunct shows the divergence of the aggregate revision, whose toggleLike
never consults the Post collection and succeeds against an empty store where
the post does not exist. -/
theorem deleted_post_ops_notFound :
    (∀ (db : Db) (pid u : OId), db.findById pid = none →
      toggleLike db pid (some u) = (db, .error .notFound)) ∧
    (∀ (db : Db) (pid u : OId) (content : List Char),
      db.findById pid = none → content.isEmpty = false →
      addComment db pid (some u) content = (db, .error .notFound)) ∧
    (∀ (db : Db) (pid cid u : OId), db.findById pid = none →
      deleteComment db pid cid (some u) = (db, .error .notFound)) ∧
    (∀ (db : Db) (pid u : OId) (p : PostDoc), db.findById pid = some p →
      p.isDeleted = true →
      toggleLike db pid (some u) = (db, .error .notFound)) ∧
    (∀ (db : Db) (pid u : OId) (p : PostDoc) (content : List Char),
      db.findById pid = some p → p.isDeleted = true →
      content.isEmpty = false →
      addComment db pid (some u) content = (db, .error .notFound)) ∧
    (∀ (db : Db) (pid cid u : OId) (p : PostDoc), db.findById pid = some p →
      p.isDeleted = true →
      deleteComment db pid cid (some u) = (db, .error .notFound)) ∧
    (toggleLikeAgg ⟨[], [], [], 0⟩ 7 (some 2)).2 =
      .ok { likesCount := 1, likedByCurrentUser := true, users := [2] } := by
  refine ⟨?_, ?_, ?_, ?_, ?_, ?_, rfl⟩
  · intro db pid u h
    simp [toggleLike, h]
  · intro db pid u content h hc
    simp [addComment, h, hc]
  · intro db pid cid u h
    simp [deleteComment, h]
  · intro db pid u p h hdel
    simp [toggleLike, h, hdel]
  · intro db pid u p content h hdel hc
    simp [addComment, h, hdel, hc]
  · intro db pid cid u p h hdel
    simp [deleteComment, h, hdel]

/-- Witness for C4 at concrete inputs: the empty store (post 3 missing) and a
one-post store whose post 3 is soft-deleted. -/
theorem deleted_post_ops_notFound_witness :
    toggleLike ⟨[], 0⟩ 3 (some 1) = (⟨[], 0⟩, .error .notFound) ∧
    addComment ⟨[⟨3, 1, [], [], [], [], true, 0⟩], 0⟩ 3 (some 1) ['h'] =
      (⟨[⟨3, 1, [], [], [], [], true, 0⟩], 0⟩, .error .notFound) :=
  ⟨deleted_post_ops_notFound.1 ⟨[], 0⟩ 3 1 rfl,
    deleted_post_ops_notFound.2.2.2.2.1 ⟨[⟨3, 1, [], [], [], [], true, 0⟩], 0⟩
      3 1 ⟨3, 1, [], [], [], [], true, 0⟩ ['h'] rfl rfl rfl⟩

/-- Witness for C1 at a concrete input: post 1 (author 9, no likes) in a
one-post store, user 2 toggling. -/
theorem toggleLike_correct_witness :
    ∃ q : PostDoc,
      toggleLike ⟨[⟨1, 9, ['h'], [], [], [], false, 0⟩], 3⟩ 1 (some 2) =
        (Db.save ⟨[⟨1, 9, ['h'], [], [], [], false, 0⟩], 3⟩ q, .ok q) ∧
      q.likes = (if 2 ∈ ([] : List OId) then
                   ([] : List OId).filter (fun l => l != 2)
                 else ([] : List OId) ++ [2]) ∧
      (2 ∈ q.likes ↔ 2 ∉ ([] : List OId)) :=
  toggleLike_correct.1 ⟨[⟨1, 9, ['h'], [], [], [], false, 0⟩], 3⟩ 1 2
    ⟨1, 9, ['h'], [], [], [], false, 0⟩ rfl rfl

/-- C7: for every non-deleted post whose comment list is empty, addComment
appends the new comment with a freshly generated identity at the end of the
list: appending C1 then C2 yields the list [C1, C2] with distinct ids, and
subsequently deleting C1 (by its author) leaves [C2] with a comment count
of 1. -/
theorem addComment_append_then_delete :
    ∀ (db : Db) (pid u1 u2 : OId) (p : PostDoc) (t1 t2 : List Char),
      db.findById pid = some p → p.isDeleted = false → p.comments = [] →
      t1.isEmpty = false → t2.isEmpty = false →
      ∃ (db1 db2 db3 : Db) (p1 p2 p3 : PostDoc) (c1 c2 : CommentEntry),
        addComment db pid (some u1) t1 = (db1, .ok (p1, c1)) ∧
        addComment db1 pid (some u2) t2 = (db2, .ok (p2, c2)) ∧
        p1.comments = [c1] ∧
        p2.comments = [c1, c2] ∧ c1.id ≠ c2.id ∧
        deleteComment db2 pid c1.id (some u1) = (db3, .ok p3) ∧
        p3.comments = [c2] ∧ p3.comments.length = 1 := by
  intro db pid u1 u2 p t1 t2 hp hnd hc ht1 ht2
  have e1 := addComment_found u1 hp hnd ht1
  have hf1 : ({ db.save { p with
        comments := p.comments ++ [⟨db.nextId, u1, jsTrim t1⟩] } with
      nextId := db.nextId + 1 } : Db).findById pid =
      some { p with comments := p.comments ++ [⟨db.nextId, u1, jsTrim t1⟩] } :=
    findById_save (p := p) rfl hp
  have e2 := addComment_found u2 hf1 hnd ht2
  have hf2 : ({ ({ db.save { p with
          comments := p.comments ++ [⟨db.nextId, u1, jsTrim t1⟩] } with
        nextId := db.nextId + 1 } : Db).save
        { p with comments :=
          (p.comments ++ [⟨db.nextId, u1, jsTrim t1⟩]) ++
            [⟨db.nextId + 1, u2, jsTrim t2⟩] } with
      nextId := db.nextId + 1 + 1 } : Db).findById pid =
      some { p with comments :=
        (p.comments ++ [⟨db.nextId, u1, jsTrim t1⟩]) ++
          [⟨db.nextId + 1, u2, jsTrim t2⟩] } :=
    findById_save
      (p := { p with comments := p.comments ++ [⟨db.nextId, u1, jsTrim t1⟩] })
      rfl hf1
  have hfc : ((p.comments ++ ([⟨db.nextId, u1, jsTrim t1⟩] : List CommentEntry)) ++
      ([⟨db.nextId + 1, u2, jsTrim t2⟩] : List CommentEntry)).find?
        (fun x => x.id == db.nextId) =
      some ⟨db.nextId, u1, jsTrim t1⟩ := by
    simp [hc]
  have hauth : (!((⟨db.nextId, u1, jsTrim t1⟩ : CommentEntry).user == u1) &&
      !(({ p with comments :=
        (p.comments ++ [⟨db.nextId, u1, jsTrim t1⟩]) ++
          [⟨db.nextId + 1, u2, jsTrim t2⟩] } : PostDoc).user == u1)) = false := by
    simp
  have e3 := deleteComment_found hf2 hnd hfc hauth
  refine ⟨_, _, _, _, _, _, _, _, e1, e2, ?_, ?_, ?_, e3, ?_, ?_⟩
  · simp [hc]
  · show (p.comments ++ [⟨db.nextId, u1, jsTrim t1⟩]) ++
        [⟨db.nextId + 1, u2, jsTrim t2⟩] =
      [⟨db.nextId, u1, jsTrim t1⟩, ⟨db.nextId + 1, u2, jsTrim t2⟩]
    simp [hc]
  · show db.nextId ≠ db.nextId + 1
    exact Nat.ne_of_lt (Nat.lt_succ_self _)
  · show ((p.comments ++ ([⟨db.nextId, u1, jsTrim t1⟩] : List CommentEntry)) ++
        ([⟨db.nextId + 1, u2, jsTrim t2⟩] : List CommentEntry)).filter
          (fun x => x.id != db.nextId) =
      [(⟨db.nextId + 1, u2, jsTrim t2⟩ : CommentEntry)]
    simp [hc]
  · show (((p.comments ++ ([⟨db.nextId, u1, jsTrim t1⟩] : List CommentEntry)) ++
        ([⟨db.nextId + 1, u2, jsTrim t2⟩] : List CommentEntry)).filter
          (fun x => x.id != db.nextId)).length = 1
    simp [hc]

/-- Witness for C7 at a concrete input: post 4 with no comments; users 2 and
3 comment, then user 2 deletes their comment. -/
theorem addComment_append_then_delete_witness :
    ∃ (db1 db2 db3 : Db) (p1 p2 p3 : PostDoc) (c1 c2 : CommentEntry),
      addComment ⟨[⟨4, 9, [], [], [], [], false, 0⟩], 0⟩ 4 (some 2) ['a'] =
        (db1, .ok (p1, c1)) ∧
      addComment db1 4 (some 3) ['b'] = (db2, .ok (p2, c2)) ∧
      p1.comments = [c1] ∧
      p2.comments = [c1, c2] ∧ c1.id ≠ c2.id ∧
      deleteComment db2 4 c1.id (some 2) = (db3, .ok p3) ∧
      p3.comments = [c2] ∧ p3.comments.length = 1 :=
  addComment_append_then_delete ⟨[⟨4, 9, [], [], [], [], false, 0⟩], 0⟩ 4 2 3
    ⟨4, 9, [], [], [], [], false, 0⟩ ['a'] ['b'] rfl rfl rfl rfl rfl

/-- C8: deleteComment removes exactly the one comment whose identity matches
and leaves all other comments in place (second conjunct: when the comment
ids are pairwise distinct around the target, the result is the surrounding
lists concatenated); when no comment with the given identity exists in the
post's current list, the operation fails with NotFound and does not change
the store (first conjunct). -/
theorem deleteComment_exact :
    (∀ (db : Db) (pid cid u : OId) (p : PostDoc),
      db.findById pid = some p → p.isDeleted = false →
      p.comments.find? (fun x => x.id == cid) = none →
      deleteComment db pid cid (some u) = (db, .error .notFound)) ∧
    (∀ (db : Db) (pid u : OId) (p : PostDoc) (l1 l2 : List CommentEntry)
      (c : CommentEntry),
      db.findById pid = some p → p.isDeleted = false →
      p.comments = l1 ++ c :: l2 →
      (∀ x ∈ l1 ++ l2, x.id ≠ c.id) →
      (c.user = u ∨ p.user = u) →
      deleteComment db pid c.id (some u) =
        (db.save { p with comments := l1 ++ l2 },
          .ok { p with comments := l1 ++ l2 })) := by
  constructor
  · intro db pid cid u p hp hnd hfc
    simp [deleteComment, hp, hnd, hfc]
  · intro db pid u p l1 l2 c hp hnd hcs h1 hauth
    have hfc : p.comments.find? (fun x => x.id == c.id) = some c := by
      rw [hcs]
      exact find?_comments_middle rfl
        (fun x hx => h1 x (List.mem_append_left _ hx))
    have hb : (!(c.user == u) && !(p.user == u)) = false := by
      rcases hauth with h | h <;> simp [h]
    have e := deleteComment_found hp hnd hfc hb
    have hfil : p.comments.filter (fun x => x.id != c.id) = l1 ++ l2 := by
      rw [hcs]
      exact filter_comments_middle rfl h1
    rw [e, hfil]

/-- Witness for C8 at a concrete input: post 5 holds comments 7 and 8; the
author of comment 7 (user 2) deletes it, leaving exactly comment 8; deleting
the absent comment 9 fails with NotFound. -/
theorem deleteComment_exact_witness :
    deleteComment
        ⟨[⟨5, 1, [], [], [⟨7, 2, ['a']⟩, ⟨8, 3, ['b']⟩], [], false, 0⟩], 0⟩
        5 9 (some 2) =
      (⟨[⟨5, 1, [], [], [⟨7, 2, ['a']⟩, ⟨8, 3, ['b']⟩], [], false, 0⟩], 0⟩,
        .error .notFound) ∧
    deleteComment
        ⟨[⟨5, 1, [], [], [⟨7, 2, ['a']⟩, ⟨8, 3, ['b']⟩], [], false, 0⟩], 0⟩
        5 7 (some 2) =
      (Db.save ⟨[⟨5, 1, [], [], [⟨7, 2, ['a']⟩, ⟨8, 3, ['b']⟩], [], false, 0⟩], 0⟩
          ⟨5, 1, [], [], [⟨8, 3, ['b']⟩], [], false, 0⟩,
        .ok ⟨5, 1, [], [], [⟨8, 3, ['b']⟩], [], false, 0⟩) :=
  ⟨deleteComment_exact.1
      ⟨[⟨5, 1, [], [], [⟨7, 2, ['a']⟩, ⟨8, 3, ['b']⟩], [], false, 0⟩], 0⟩ 5 9 2
      ⟨5, 1, [], [], [⟨7, 2, ['a']⟩, ⟨8, 3, ['b']⟩], [], false, 0⟩ rfl rfl rfl,
    deleteComment_exact.2
      ⟨[⟨5, 1, [], [], [⟨7, 2, ['a']⟩, ⟨8, 3, ['b']⟩], [], false, 0⟩], 0⟩ 5 2
      ⟨5, 1, [], [], [⟨7, 2, ['a']⟩, ⟨8, 3, ['b']⟩], [], false, 0⟩
      [] [⟨8, 3, ['b']⟩] ⟨7, 2, ['a']⟩ rfl rfl rfl (by decide) (Or.inl rfl)⟩

/-- C9: whenever a Ledger operation fails (InvalidInput, NotFound, Forbidden,
or Unauthorized), no mutation has been applied — the returned store is
exactly the input store, because every validation and authorization check
runs before any write.  Conjuncts cover toggleLike, addComment and
deleteComment of the embedded-design service, and the three operations of
the aggregate revision. -/
theorem ledger_fail_no_mutation :
    (∀ (db : Db) (pid : OId) (u? : Option OId) (e : Err),
      (toggleLike db pid u?).2 = .error e → (toggleLike db pid u?).1 = db) ∧
    (∀ (db : Db) (pid : OId) (u? : Option OId) (t : List Char) (e : Err),
      (addComment db pid u? t).2 = .error e → (addComment db pid u? t).1 = db) ∧
    (∀ (db : Db) (pid cid : OId) (u? : Option OId) (e : Err),
      (deleteComment db pid cid u?).2 = .error e →
      (deleteComment db pid cid u?).1 = db) ∧
    (∀ (db : Db2) (pid : OId) (u? : Option OId) (e : Err),
      (toggleLikeAgg db pid u?).2 = .error e → (toggleLikeAgg db pid u?).1 = db) ∧
    (∀ (db : Db2) (pid : OId) (u? : Option OId) (t : List Char) (e : Err),
      (addCommentAgg db pid u? t).2 = .error e →
      (addCommentAgg db pid u? t).1 = db) ∧
    (∀ (db : Db2) (pid cid : OId) (u? : Option OId) (e : Err),
      (deleteCommentAgg db pid cid u?).2 = .error e →
      (deleteCommentAgg db pid cid u?).1 = db) := by
  refine ⟨?_, ?_, ?_, ?_, ?_, ?_⟩
  · intro db pid u? e h
    cases u? with
    | none => rfl
    | some u =>
      cases hf : db.findById pid with
      | none => simp [toggleLike, hf]
      | some p =>
        by_cases hdel : p.isDeleted <;> simp [toggleLike, hf, hdel] at h ⊢
  · intro db pid u? t e h
    cases u? with
    | none => rfl
    | some u =>
      by_cases ht : t.isEmpty
      · simp [addComment, ht]
      · cases hf : db.findById pid with
        | none => simp [addComment, ht, hf]
        | some p =>
          by_cases hdel : p.isDeleted <;>
            simp [addComment, ht, hf, hdel] at h ⊢
  · intro db pid cid u? e h
    cases u? with
    | none => rfl
    | some u =>
      cases hf : db.findById pid with
      | none => simp [deleteComment, hf]
      | some p =>
        by_cases hdel : p.isDeleted
        · simp [deleteComment, hf, hdel]
        · cases hfc : p.comments.find? (fun c => c.id == cid) with
          | none => simp [deleteComment, hf, hdel, hfc]
          | some c =>
            by_cases hb : (!(c.user == u) && !(p.user == u)) = true
            · simp [deleteComment, hf, hdel, hfc, hb]
            · simp [deleteComment, hf, hdel, hfc, hb] at h
  · intro db pid u? e h
    cases u? with
    | none => rfl
    | some u => simp [toggleLikeAgg] at h
  · intro db pid u? t e h
    cases u? with
    | none => rfl
    | some u =>
      by_cases ht : t.isEmpty
      · simp [addCommentAgg, ht]
      · cases hf : db.findCommentDoc pid with
        | none => simp [addCommentAgg, ht, hf] at h
        | some d => simp [addCommentAgg, ht, hf] at h
  · intro db pid cid u? e h
    cases u? with
    | none => rfl
    | some u =>
      cases hf : db.findCommentDoc pid with
      | none => simp [deleteCommentAgg, hf]
      | some d =>
        cases hfc : d.comments.find? (fun c => c.id == cid) with
        | none => simp [deleteCommentAgg, hf, hfc]
        | some c =>
          by_cases hb : (c.user != u) = true
          · simp [deleteCommentAgg, hf, hfc, hb]
          · simp [deleteCommentAgg, hf, hfc, hb] at h

/-- Witness for C9 at a concrete input: toggling a like on the empty store
with no authenticated user fails and leaves the store unchanged. -/
theorem ledger_fail_no_mutation_witness :
    (toggleLike ⟨[], 0⟩ 1 none).1 = ⟨[], 0⟩ :=
  ledger_fail_no_mutation.1 ⟨[], 0⟩ 1 none .invalidInput rfl

theorem commentRulesPass_iff {t : List Char} :
    commentRulesPass t = true ↔
      (t.filter (fun c => !jsIsWs c) ≠ [] ∧ t.length ≤ 500) := by
  unfold commentRulesPass vjsRequired vjsMinLen vjsMaxLen
  constructor
  · intro h
    simp only [Bool.and_eq_true, Bool.not_eq_true', List.isEmpty_eq_false,
      decide_eq_true_eq] at h
    exact ⟨h.1.1, h.2⟩
  · rintro ⟨h1, h2⟩
    have hne : t ≠ [] := by
      intro he
      subst he
      simp at h1
    have hlen : 0 < t.length := List.length_pos.mpr hne
    simp only [Bool.and_eq_true, Bool.not_eq_true', List.isEmpty_eq_false,
      decide_eq_true_eq]
    exact ⟨⟨h1, by omega⟩, h2⟩

/-- C5 (amended): for every existing, non-deleted post and authenticated
user, the addComment route (controller validation with commentRules, then
the service) fails with InvalidInput exactly when the content has no
non-whitespace character or its raw (untrimmed) length exceeds 500; content
with at least one non-whitespace character and raw length at most 500 is
accepted and appended (trimmed by the schema). -/
theorem addCommentRoute_validation :
    ∀ (db : Db) (pid u : OId) (p : PostDoc) (content : List Char),
      db.findById pid = some p → p.isDeleted = false →
      (((addCommentRoute db pid (some u) content).2 = .error .invalidInput) ↔
        (content.filter (fun c => !jsIsWs c) = [] ∨ 500 < content.length)) ∧
      ((content.filter (fun c => !jsIsWs c) ≠ [] ∧ content.length ≤ 500) →
        addCommentRoute db pid (some u) content =
          ({ db.save { p with
              comments := p.comments ++ [⟨db.nextId, u, jsTrim content⟩] } with
            nextId := db.nextId + 1 },
            .ok ({ p with
              comments := p.comments ++ [⟨db.nextId, u, jsTrim content⟩] },
              ⟨db.nextId, u, jsTrim content⟩))) := by
  intro db pid u p content hp hnd
  by_cases hv : commentRulesPass content = true
  · obtain ⟨h1, h2⟩ := commentRulesPass_iff.mp hv
    have ht : content.isEmpty = false := by
      cases hcc : content with
      | nil =>
        subst hcc
        simp at h1
      | cons a l => rfl
    have e := addComment_found u hp hnd ht
    have er : addCommentRoute db pid (some u) content =
        ({ db.save { p with
            comments := p.comments ++ [⟨db.nextId, u, jsTrim content⟩] } with
          nextId := db.nextId + 1 },
          .ok ({ p with
            comments := p.comments ++ [⟨db.nextId, u, jsTrim content⟩] },
            ⟨db.nextId, u, jsTrim content⟩)) := by
      simp only [addCommentRoute, hv, if_true]
      exact e
    constructor
    · rw [er]
      constructor
      · intro hcontra
        exact absurd hcontra (by simp)
      · rintro (hC | hC)
        · exact absurd hC h1
        · omega
    · intro _
      exact er
  · have hv' : commentRulesPass content = false := by
      rwa [Bool.not_eq_true] at hv
    have hroute : addCommentRoute db pid (some u) content =
        (db, .error .invalidInput) := by
      simp only [addCommentRoute, hv', Bool.false_eq_true, if_false]
    have hnot : ¬ (content.filter (fun c => !jsIsWs c) ≠ [] ∧
        content.length ≤ 500) := by
      intro hcon
      rw [commentRulesPass_iff.mpr hcon] at hv'
      exact absurd hv' (by simp)
    constructor
    · rw [hroute]
      constructor
      · intro _
        by_cases hA : content.filter (fun c => !jsIsWs c) = []
        · exact Or.inl hA
        · refine Or.inr ?_
          by_cases hB : content.length ≤ 500
          · exact absurd ⟨hA, hB⟩ hnot
          · omega
      · intro _
        rfl
    · intro hcon
      exact absurd hcon hnot

/-- Witness for C5 (amended) at a concrete input: content "hi" on an
existing, non-deleted post is accepted and appended. -/
theorem addCommentRoute_validation_witness :
    (((addCommentRoute ⟨[⟨1, 9, ['x'], [], [], [], false, 0⟩], 0⟩ 1 (some 2)
        ['h', 'i']).2 = .error .invalidInput) ↔
      ((['h', 'i'] : List Char).filter (fun c => !jsIsWs c) = [] ∨
        500 < (['h', 'i'] : List Char).length)) ∧
    (((['h', 'i'] : List Char).filter (fun c => !jsIsWs c) ≠ [] ∧
        (['h', 'i'] : List Char).length ≤ 500) →
      addCommentRoute ⟨[⟨1, 9, ['x'], [], [], [], false, 0⟩], 0⟩ 1 (some 2)
          ['h', 'i'] =
        ({ Db.save ⟨[⟨1, 9, ['x'], [], [], [], false, 0⟩], 0⟩
            { (⟨1, 9, ['x'], [], [], [], false, 0⟩ : PostDoc) with
              comments := (⟨1, 9, ['x'], [], [], [], false, 0⟩ : PostDoc).comments ++
                [⟨(⟨[⟨1, 9, ['x'], [], [], [], false, 0⟩], 0⟩ : Db).nextId, 2,
                  jsTrim ['h', 'i']⟩] } with
          nextId := (⟨[⟨1, 9, ['x'], [], [], [], false, 0⟩], 0⟩ : Db).nextId + 1 },
          .ok ({ (⟨1, 9, ['x'], [], [], [], false, 0⟩ : PostDoc) with
            comments := (⟨1, 9, ['x'], [], [], [], false, 0⟩ : PostDoc).comments ++
              [⟨(⟨[⟨1, 9, ['x'], [], [], [], false, 0⟩], 0⟩ : Db).nextId, 2,
                jsTrim ['h', 'i']⟩] },
            ⟨(⟨[⟨1, 9, ['x'], [], [], [], false, 0⟩], 0⟩ : Db).nextId, 2,
              jsTrim ['h', 'i']⟩))) :=
  addCommentRoute_validation ⟨[⟨1, 9, ['x'], [], [], [], false, 0⟩], 0⟩ 1 2
    ⟨1, 9, ['x'], [], [], [], false, 0⟩ ['h', 'i'] rfl rfl

set_option maxRecDepth 4000

/-- C5 (counterexample to the claim as stated): the content "a" followed by
500 spaces has trimmed length 1 — inside [1, 500] — yet the route rejects it
with InvalidInput and leaves the store unchanged, because validatorjs's
max:500 measures the raw, untrimmed length (501). -/
theorem addComment_trimmed_in_range_rejected :
    (jsTrim ('a' :: List.replicate 500 ' ')).length = 1 ∧
    ('a' :: List.replicate 500 ' ').length = 501 ∧
    (addCommentRoute ⟨[⟨1, 9, ['x'], [], [], [], false, 0⟩], 0⟩ 1 (some 2)
        ('a' :: List.replicate 500 ' ')).2 = .error .invalidInput ∧
    (addCommentRoute ⟨[⟨1, 9, ['x'], [], [], [], false, 0⟩], 0⟩ 1 (some 2)
        ('a' :: List.replicate 500 ' ')).1 =
      ⟨[⟨1, 9, ['x'], [], [], [], false, 0⟩], 0⟩ ∧
    ¬ (((addCommentRoute ⟨[⟨1, 9, ['x'], [], [], [], false, 0⟩], 0⟩ 1 (some 2)
          ('a' :: List.replicate 500 ' ')).2 = .error .invalidInput) ↔
        ((jsTrim ('a' :: List.replicate 500 ' ')).length < 1 ∨
          500 < (jsTrim ('a' :: List.replicate 500 ' ')).length)) := by
  refine ⟨rfl, rfl, rfl, rfl, ?_⟩
  intro h
  have h2 := h.mp rfl
  have hlen : (jsTrim ('a' :: List.replicate 500 ' ')).length = 1 := rfl
  rcases h2 with h' | h' <;> omega

theorem getAllPosts_len_le (db : Db) (page limit : Nat) :
    (getAllPosts db page limit).1.length ≤ 5 := by
  simp only [getAllPosts]
  rw [List.length_take]
  exact min_le_left _ _

theorem getAllPosts_pages_ceil (db : Db) (page limit : Nat) :
    (getAllPosts db page limit).2.1 ≤ 5 * (getAllPosts db page limit).2.2 ∧
    5 * (getAllPosts db page limit).2.2 < (getAllPosts db page limit).2.1 + 5 := by
  simp only [getAllPosts]
  omega

/-- C10: the getAllPosts service uses a fixed internal page size of 5 — the
returned page holds at most 5 posts (first conjunct), the result does not
depend on the limit argument at all (second conjunct), and the reported
pages value is exactly ceil(total / 5), characterized arithmetically
(third conjunct) — while the controller accepts caller-supplied limits up
to 100 and echoes them unchanged in the pagination metadata alongside the
service's values (fourth conjunct). -/
theorem getAllPosts_fixed_page_size :
    (∀ (db : Db) (page limit : Nat),
      (getAllPosts db page limit).1.length ≤ 5) ∧
    (∀ (db : Db) (page l1 l2 : Nat),
      getAllPosts db page l1 = getAllPosts db page l2) ∧
    (∀ (db : Db) (page limit : Nat),
      (getAllPosts db page limit).2.1 ≤ 5 * (getAllPosts db page limit).2.2 ∧
      5 * (getAllPosts db page limit).2.2 <
        (getAllPosts db page limit).2.1 + 5) ∧
    (∀ (db : Db) (page limit : Nat), 1 ≤ page → 1 ≤ limit → limit ≤ 100 →
      getAllPostsController db page limit =
        .ok ((getAllPosts db page limit).1,
          { currentPage := page, limit := limit,
            total := (getAllPosts db page limit).2.1,
            totalPages := (getAllPosts db page limit).2.2 })) := by
  refine ⟨getAllPosts_len_le, ?_, getAllPosts_pages_ceil, ?_⟩
  · intro db page l1 l2
    rfl
  · intro db page limit hpage hl1 hl2
    have c1 : ¬ page < 1 := by omega
    have c2 : ¬ limit < 1 := by omega
    have c3 : ¬ limit > 100 := by omega
    simp only [getAllPostsController, c1, c2, c3, if_false]

/-- Witness for C10 at a concrete input: the empty store, page 1, caller
limit 10 (validated and echoed, while the service's fixed size stays 5). -/
theorem getAllPosts_fixed_page_size_witness :
    getAllPostsController ⟨[], 0⟩ 1 10 =
      .ok ((getAllPosts ⟨[], 0⟩ 1 10).1,
        { currentPage := 1, limit := 10,
          total := (getAllPosts ⟨[], 0⟩ 1 10).2.1,
          totalPages := (getAllPosts ⟨[], 0⟩ 1 10).2.2 }) :=
  getAllPosts_fixed_page_size.2.2.2 ⟨[], 0⟩ 1 10 (by decide) (by decide)
    (by decide)
